import Mathlib

/-!
# Verification of the ECF sequence-allocation engine

Shallow embedding of `internal/dbf/manager.go` from the
`ecf-sequence-server` repository, together with the table-file
capability it calls into (the `godbf` library, which the specification
treats as an external collaborator with a fixed interface).

Modelling conventions:
* A DBF row is a soft-delete flag plus an association list from field
  names to their text contents (`Row`).  The on-disk file is modelled as
  `Option (List Row)`: `none` stands for a file that fails to open or
  parse, `some rows` for a file that opens as the given row list.
* Go `int64` values are modelled as `Int` with explicit two's-complement
  wrap-around (`wrap64`) applied exactly where Go performs `int64`
  addition.
* Go strings are modelled as Lean `String`s; byte indexing in the Go
  source only ever touches ASCII data, so character indexing is faithful.
* Error returns (`error` in Go) are modelled with `Except String` /
  `Option`; the text of IO-dependent error messages is abbreviated.
-/

deriving instance DecidableEq for Except

namespace ECF

/-- One DBF record: the soft-delete flag from the record header plus the
named text fields of the record. -/
structure Row where
  deleted : Bool
  fields : List (String × String)
deriving DecidableEq, Repr

/-- Association-list lookup used to model `godbf`'s `FieldValueByName`:
`none` models the error return (field unreadable). -/
def lookupField : List (String × String) → String → Option String
  | [], _ => none
  | (k, v) :: rest, name => if k = name then some v else lookupField rest name

/-- Modelled from the spec: the table-file capability
`Table.fieldAsText(i, name)` (`godbf.FieldValueByName`); `none` is the
error case. -/
def fieldValueByName (r : Row) (name : String) : Option String :=
  lookupField r.fields name

/-- Association-list update: replaces the first binding of `name`, or
appends one if absent. -/
def setAssoc : List (String × String) → String → String → List (String × String)
  | [], name, v => [(name, v)]
  | (k, w) :: rest, name, v =>
    if k = name then (k, v) :: rest else (k, w) :: setAssoc rest name v

/-- Modelled from the spec: the table-file capability
`Table.setField(i, name, text)` (`godbf.SetFieldValueByName`). -/
def setFieldValueByName (r : Row) (name v : String) : Row :=
  { r with fields := setAssoc r.fields name v }

/-- The whitespace predicate of Go's `strings.TrimSpace`, restricted to
the ASCII whitespace characters that can occur in DBF text fields. -/
def isSpaceGo (c : Char) : Bool :=
  c = ' ' || c = '\t' || c = '\n' || c = '\r' || c = '\x0b' || c = '\x0c'

/-- Trim leading and trailing whitespace from a character list. -/
def trimChars (l : List Char) : List Char :=
  ((l.dropWhile isSpaceGo).reverse.dropWhile isSpaceGo).reverse

/-- Model of Go `strings.TrimSpace`. -/
def trimSpace (s : String) : String :=
  String.mk (trimChars s.data)

/-- Model of Go `strings.HasPrefix s pre`. -/
def hasPrefixGo (s pre : String) : Bool :=
  pre.data.isPrefixOf s.data

/-- Model of Go `strings.ToUpper` (ASCII; the only channel values that
matter are ASCII letters). -/
def toUpperGo (s : String) : String :=
  String.mk (s.data.map Char.toUpper)

/-- Numeric value of a decimal digit character. -/
def digitVal (c : Char) : Nat := c.toNat - 48

/-- Parse a non-empty all-digit character list as a natural number
(the digit loop of Go `strconv.ParseInt` in base 10). -/
def parseDigits (l : List Char) : Option Nat :=
  if l = [] then none
  else if l.all Char.isDigit then
    some (l.foldl (fun a c => a * 10 + digitVal c) 0)
  else none

/-- Largest Go `int64` value. -/
def int64Max : Int := 9223372036854775807

/-- Smallest Go `int64` value. -/
def int64Min : Int := -9223372036854775808

/-- Character-list body of `parseInt64`: optional sign, then a
non-empty digit run, with the `int64` range check of
`strconv.ParseInt(·, 10, 64)`. -/
def parseInt64Chars : List Char → Option Int
  | [] => none
  | c :: rest =>
    if c = '+' then
      (parseDigits rest).bind
        (fun v => if (v : Int) ≤ int64Max then some (v : Int) else none)
    else if c = '-' then
      (parseDigits rest).bind
        (fun v => if (v : Int) ≤ 9223372036854775808 then some (-(v : Int)) else none)
    else
      (parseDigits (c :: rest)).bind
        (fun v => if (v : Int) ≤ int64Max then some (v : Int) else none)

/-- Model of Go `strconv.ParseInt(s, 10, 64)`: `none` models an error
return (syntax error or value outside the `int64` range; in both cases
the callers in `manager.go` discard the clamped value). -/
def parseInt64 (s : String) : Option Int :=
  parseInt64Chars s.data

/-- The helper `parseInt` from `internal/dbf/manager.go`: converts a string to
`int64`, returning 0 on any parse error. -/
def parseInt (s : String) : Int :=
  (parseInt64 (trimSpace s)).getD 0

/-- Modelled from the spec: the table-file capability
`Table.fieldAsInt(i, name)` (`godbf.Int64FieldValueByName` with the
error discarded, as in `seqVal, _ :=` in `GetSequence`): unparsable or
missing numeric text is treated as 0. -/
def int64FieldValueByName (r : Row) (name : String) : Int :=
  (parseInt64 (trimSpace ((fieldValueByName r name).getD ""))).getD 0

/-- Fuel-driven little-endian base-10 digit expansion (structural
recursion so that the kernel can evaluate it). -/
def natDigitsAux : Nat → Nat → List Nat
  | 0, _ => []
  | _ + 1, 0 => []
  | fuel + 1, n + 1 => ((n + 1) % 10) :: natDigitsAux fuel ((n + 1) / 10)

/-- Little-endian base-10 digits of a natural number. -/
def natDigits (n : Nat) : List Nat := natDigitsAux n n

/-- The character for a decimal digit. -/
def digitChar (d : Nat) : Char :=
  match d with
  | 0 => '0' | 1 => '1' | 2 => '2' | 3 => '3' | 4 => '4'
  | 5 => '5' | 6 => '6' | 7 => '7' | 8 => '8' | _ => '9'

/-- Big-endian decimal digit string of a natural number. -/
def natToChars (n : Nat) : List Char :=
  if n = 0 then ['0'] else ((natDigits n).reverse.map digitChar)

/-- Model of Go `strconv.FormatInt(n, 10)`. -/
def formatInt (n : Int) : String :=
  if n < 0 then String.mk ('-' :: natToChars n.natAbs)
  else String.mk (natToChars n.natAbs)

/-- Left-pad a character list with `'0'` to a minimum width. -/
def leftPad (w : Nat) (l : List Char) : List Char :=
  List.replicate (w - l.length) '0' ++ l

/-- Model of Go `fmt.Sprintf("%010d", n)`: minimum width 10, zero
padding inserted after the sign. -/
def pad10 (n : Int) : String :=
  if n < 0 then String.mk ('-' :: leftPad 9 (natToChars n.natAbs))
  else String.mk (leftPad 10 (natToChars n.natAbs))

/-- Two's-complement wrap-around of Go `int64` arithmetic. -/
def wrap64 (n : Int) : Int :=
  (n + 9223372036854775808) % 18446744073709551616 - 9223372036854775808

/-- The `switch strings.ToUpper(cta)` in `GetSequence`: channel `A`
selects field `NUMERO_1`, channel `B` selects `NUMERO_2`, anything else
is invalid (`none`). -/
def channelFieldName (cta : String) : Option String :=
  if toUpperGo cta = "A" then some "NUMERO_1"
  else if toUpperGo cta = "B" then some "NUMERO_2"
  else none

/-- The condition under which the scan loop of `GetSequence` selects a
row: not deleted, `NUMERO` readable, and its trimmed value has the
requested `tipo` as a prefix. -/
def rowMatches (r : Row) (tipo : String) : Bool :=
  !r.deleted &&
    (match fieldValueByName r "NUMERO" with
     | none => false
     | some numeroStr => hasPrefixGo (trimSpace numeroStr) tipo)

/-- The scan-and-mutate loop of `GetSequence` (lines 166–188 of
`manager.go`): walk the rows in file order, skip deleted rows and rows
whose `NUMERO` cannot be read, and at the first row whose trimmed
`NUMERO` starts with `tipo`, increment the selected counter field and
stop.  Returns the new counter value and the updated row list, or
`none` when no row matches. -/
def scanUpdate (rows : List Row) (tipo fieldName : String) : Option (Int × List Row) :=
  match rows with
  | [] => none
  | r :: rest =>
    if r.deleted then
      (scanUpdate rest tipo fieldName).map (fun p => (p.1, r :: p.2))
    else
      match fieldValueByName r "NUMERO" with
      | none => (scanUpdate rest tipo fieldName).map (fun p => (p.1, r :: p.2))
      | some numeroStr =>
        if hasPrefixGo (trimSpace numeroStr) tipo then
          some (wrap64 (int64FieldValueByName r fieldName + 1),
                setFieldValueByName r fieldName
                  (formatInt (wrap64 (int64FieldValueByName r fieldName + 1))) :: rest)
        else (scanUpdate rest tipo fieldName).map (fun p => (p.1, r :: p.2))

/-- The method `Manager.GetSequence` from `internal/dbf/manager.go`: opens the DBF
file (first), validates the channel, scans for the first matching row,
increments its counter, saves the table, and returns the formatted
sequence together with the new counter value.  The second component of
the result is the on-disk state after the call. -/
def GetSequence (disk : Option (List Row)) (tipo cta : String) :
    Except String (String × Int) × Option (List Row) :=
  match disk with
  | none => (Except.error "error abriendo DBF", none)
  | some table =>
    match channelFieldName cta with
    | none => (Except.error ("CTA no válido: " ++ cta), some table)
    | some fieldName =>
      match scanUpdate table tipo fieldName with
      | none => (Except.error ("tipo de comprobante no encontrado: " ++ tipo), some table)
      | some (newSeqVal, table2) =>
        (Except.ok (tipo ++ pad10 newSeqVal, newSeqVal), some table2)

/-- The struct `ComprobanteTipo` from `internal/dbf/manager.go`. -/
structure ComprobanteTipo where
  NCFTipo : String
  CodPFF : Int
  Nombre : String
  Resumen : String
  Numero : String
  Numero1 : Int
  Numero2 : Int
  FechaDoc : String
  Minimo : Int
  CantSecuen : Int
deriving DecidableEq, Repr

/-- The per-row decoding of the `GetRecordTypes` loop body (lines
100–134 of `manager.go`): each field is read with the error discarded
(missing field ⇒ empty string), numeric fields go through `parseInt`,
and `NCFTipo` is the first three characters of the trimmed `NUMERO`
when it has at least three. -/
def decodeRow (r : Row) : ComprobanteTipo :=
  { NCFTipo :=
      if 3 ≤ (trimSpace ((fieldValueByName r "NUMERO").getD "")).data.length then
        String.mk ((trimSpace ((fieldValueByName r "NUMERO").getD "")).data.take 3)
      else ""
    CodPFF := parseInt ((fieldValueByName r "COD_PF_F").getD "")
    Nombre := trimSpace ((fieldValueByName r "NOMBRE").getD "")
    Resumen := trimSpace ((fieldValueByName r "RESUMEN").getD "")
    Numero := trimSpace ((fieldValueByName r "NUMERO").getD "")
    Numero1 := parseInt ((fieldValueByName r "NUMERO_1").getD "")
    Numero2 := parseInt ((fieldValueByName r "NUMERO_2").getD "")
    FechaDoc := trimSpace ((fieldValueByName r "FEC_DOC").getD "")
    Minimo := parseInt ((fieldValueByName r "MINIMO").getD "")
    CantSecuen := parseInt ((fieldValueByName r "CANTSECUEN").getD "") }

/-- The record loop of `Manager.GetRecordTypes` (lines 93–137 of
`manager.go`): iterate the rows in file order, skip deleted rows, and
decode every other row. -/
def getRecordTypesLoop : List Row → List ComprobanteTipo
  | [] => []
  | r :: rest =>
    if r.deleted then getRecordTypesLoop rest
    else decodeRow r :: getRecordTypesLoop rest

/-- The method `Manager.GetRecordTypes` from `internal/dbf/manager.go`: open the
DBF file and decode every non-deleted row. -/
def GetRecordTypes (disk : Option (List Row)) : Except String (List ComprobanteTipo) :=
  match disk with
  | none => Except.error "error abriendo DBF"
  | some table => Except.ok (getRecordTypesLoop table)

/-- Iteration of `N` successive `GetSequence` calls threaded through the on-disk
state: the serialized execution of `N` allocations (the `sync.Mutex` in
`Manager` forces every interleaving of concurrent callers into such a
sequence). -/
def allocateSeq (disk : Option (List Row)) (tipo cta : String) :
    Nat → List (Except String (String × Int)) × Option (List Row)
  | 0 => ([], disk)
  | Nat.succ n =>
    ((GetSequence disk tipo cta).1 ::
        (allocateSeq (GetSequence disk tipo cta).2 tipo cta n).1,
      (allocateSeq (GetSequence disk tipo cta).2 tipo cta n).2)

/-! ## Helper lemmas: association lists -/

theorem lookupField_setAssoc_self (l : List (String × String)) (name v : String) :
    lookupField (setAssoc l name v) name = some v := by
  induction l with
  | nil => simp [setAssoc, lookupField]
  | cons kv rest ih =>
    by_cases h : kv.1 = name
    · simp [setAssoc, lookupField, h]
    · simp [setAssoc, lookupField, h, ih]

theorem lookupField_setAssoc_ne (l : List (String × String)) (name v name' : String)
    (h : name' ≠ name) :
    lookupField (setAssoc l name v) name' = lookupField l name' := by
  have h' : ¬(name = name') := fun hx => h hx.symm
  induction l with
  | nil => simp [setAssoc, lookupField, h']
  | cons kv rest ih =>
    obtain ⟨k, w⟩ := kv
    by_cases hk : k = name
    · have hk' : ¬(k = name') := by rw [hk]; exact h'
      simp [setAssoc, lookupField, hk, hk', h']
    · by_cases hk' : k = name'
      · simp [setAssoc, lookupField, hk, hk', h, h']
      · simp [setAssoc, lookupField, hk, hk', ih]

theorem fieldValue_set_self (r : Row) (name v : String) :
    fieldValueByName (setFieldValueByName r name v) name = some v :=
  lookupField_setAssoc_self r.fields name v

theorem fieldValue_set_ne (r : Row) (name v name' : String) (h : name' ≠ name) :
    fieldValueByName (setFieldValueByName r name v) name' = fieldValueByName r name' :=
  lookupField_setAssoc_ne r.fields name v name' h

theorem deleted_set (r : Row) (name v : String) :
    (setFieldValueByName r name v).deleted = r.deleted := rfl

/-! ## Helper lemmas: trimming -/

theorem dropWhile_eq_self_of_all (l : List Char)
    (h : ∀ c ∈ l, isSpaceGo c = false) : l.dropWhile isSpaceGo = l := by
  cases l with
  | nil => rfl
  | cons c rest => simp [List.dropWhile, h c (by simp)]

theorem trimChars_eq_self (l : List Char)
    (h : ∀ c ∈ l, isSpaceGo c = false) : trimChars l = l := by
  unfold trimChars
  rw [dropWhile_eq_self_of_all l h]
  rw [dropWhile_eq_self_of_all l.reverse (fun c hc => h c (List.mem_reverse.mp hc))]
  exact List.reverse_reverse l

/-! ## Helper lemmas: 64-bit wrap-around -/

theorem wrap64_bounds (n : Int) : int64Min ≤ wrap64 n ∧ wrap64 n ≤ int64Max := by
  unfold wrap64 int64Min int64Max
  have h1 : 0 ≤ (n + 9223372036854775808) % 18446744073709551616 :=
    Int.emod_nonneg _ (by norm_num)
  have h2 : (n + 9223372036854775808) % 18446744073709551616 < 18446744073709551616 :=
    Int.emod_lt_of_pos _ (by norm_num)
  omega

theorem wrap64_eq_self (n : Int) (h1 : int64Min ≤ n) (h2 : n ≤ int64Max) :
    wrap64 n = n := by
  unfold wrap64
  unfold int64Min at h1
  unfold int64Max at h2
  rw [Int.emod_eq_of_lt (by omega) (by omega)]
  omega

/-! ## Helper lemmas: decimal formatting and parsing round-trip -/

theorem natDigitsAux_eq (fuel : Nat) : ∀ n, n ≤ fuel → natDigitsAux fuel n = Nat.digits 10 n := by
  induction fuel with
  | zero =>
    intro n hn
    have h0 : n = 0 := Nat.le_zero.mp hn
    subst h0
    simp [natDigitsAux]
  | succ fuel ih =>
    intro n hn
    cases n with
    | zero => simp [natDigitsAux]
    | succ m =>
      rw [Nat.digits_def' (by norm_num : (1:ℕ) < 10) (Nat.succ_pos m)]
      unfold natDigitsAux
      rw [ih ((m + 1) / 10) (by
        have := Nat.div_lt_self (Nat.succ_pos m) (by norm_num : (1:ℕ) < 10)
        omega)]

theorem natDigits_eq (n : Nat) : natDigits n = Nat.digits 10 n :=
  natDigitsAux_eq n n le_rfl

theorem digitChar_isDigit (d : Nat) (h : d < 10) : (digitChar d).isDigit = true := by
  interval_cases d <;> decide

theorem digitVal_digitChar (d : Nat) (h : d < 10) : digitVal (digitChar d) = d := by
  interval_cases d <;> decide

theorem natToChars_all_digit (n : Nat) : ∀ c ∈ natToChars n, c.isDigit = true := by
  intro c hc
  unfold natToChars at hc
  by_cases h0 : n = 0
  · rw [if_pos h0] at hc
    simp at hc
    rw [hc]
    decide
  · rw [if_neg h0] at hc
    simp only [List.mem_map, List.mem_reverse] at hc
    obtain ⟨d, hd, hcd⟩ := hc
    rw [natDigits_eq] at hd
    rw [← hcd]
    exact digitChar_isDigit d (Nat.digits_lt_base (by norm_num) hd)

theorem natToChars_ne_nil (n : Nat) : natToChars n ≠ [] := by
  unfold natToChars
  by_cases h0 : n = 0
  · rw [if_pos h0]; simp
  · rw [if_neg h0]
    simp only [ne_eq, List.map_eq_nil_iff, List.reverse_eq_nil_iff]
    rw [natDigits_eq]
    exact Nat.digits_ne_nil_iff_ne_zero.mpr h0

theorem foldl_digits_reverse (ds : List Nat) (hd : ∀ d ∈ ds, d < 10) (a : Nat) :
    (ds.reverse.map digitChar).foldl (fun x c => x * 10 + digitVal c) a =
      a * 10 ^ ds.length + Nat.ofDigits 10 ds := by
  induction ds generalizing a with
  | nil => simp [Nat.ofDigits]
  | cons d ds ih =>
    rw [List.reverse_cons, List.map_append, List.foldl_append]
    rw [ih (fun x hx => hd x (by simp [hx])) a]
    simp only [List.map_cons, List.map_nil, List.foldl_cons, List.foldl_nil]
    rw [digitVal_digitChar d (hd d (by simp))]
    rw [Nat.ofDigits_cons, List.length_cons, pow_succ]
    ring

theorem foldl_natToChars (n : Nat) :
    (natToChars n).foldl (fun x c => x * 10 + digitVal c) 0 = n := by
  unfold natToChars
  by_cases h0 : n = 0
  · rw [if_pos h0, h0]; decide
  · rw [if_neg h0, natDigits_eq]
    rw [foldl_digits_reverse _ (fun d hd => Nat.digits_lt_base (by norm_num) hd) 0]
    rw [Nat.ofDigits_digits]
    ring

theorem foldl_replicate_zero (k : Nat) :
    (List.replicate k '0').foldl (fun x c => x * 10 + digitVal c) 0 = 0 := by
  induction k with
  | zero => rfl
  | succ k ih => simpa [List.replicate_succ] using ih

theorem leftPad_all_digit (w n : Nat) :
    ∀ c ∈ leftPad w (natToChars n), c.isDigit = true := by
  intro c hc
  unfold leftPad at hc
  rcases List.mem_append.mp hc with h | h
  · rw [List.eq_of_mem_replicate h]; decide
  · exact natToChars_all_digit n c h

theorem leftPad_ne_nil (w n : Nat) : leftPad w (natToChars n) ≠ [] := by
  unfold leftPad
  intro hnil
  exact natToChars_ne_nil n (List.append_eq_nil.mp hnil).2

theorem parseDigits_leftPad (w n : Nat) :
    parseDigits (leftPad w (natToChars n)) = some n := by
  unfold parseDigits
  rw [if_neg (leftPad_ne_nil w n)]
  rw [if_pos (List.all_eq_true.mpr (leftPad_all_digit w n))]
  unfold leftPad
  rw [List.foldl_append, foldl_replicate_zero, foldl_natToChars]

theorem parseDigits_natToChars (n : Nat) : parseDigits (natToChars n) = some n := by
  have h := parseDigits_leftPad 0 n
  unfold leftPad at h
  simpa using h

theorem isDigit_ne_plus (c : Char) (h : c.isDigit = true) : ¬(c = '+') := by
  intro hc; rw [hc] at h; exact absurd h (by decide)

theorem isDigit_ne_minus (c : Char) (h : c.isDigit = true) : ¬(c = '-') := by
  intro hc; rw [hc] at h; exact absurd h (by decide)

theorem isDigit_not_space (c : Char) (h : c.isDigit = true) : isSpaceGo c = false := by
  unfold isSpaceGo
  have h1 : ¬(c = ' ') := fun hc => by rw [hc] at h; exact absurd h (by decide)
  have h2 : ¬(c = '\t') := fun hc => by rw [hc] at h; exact absurd h (by decide)
  have h3 : ¬(c = '\n') := fun hc => by rw [hc] at h; exact absurd h (by decide)
  have h4 : ¬(c = '\r') := fun hc => by rw [hc] at h; exact absurd h (by decide)
  have h5 : ¬(c = '\x0b') := fun hc => by rw [hc] at h; exact absurd h (by decide)
  have h6 : ¬(c = '\x0c') := fun hc => by rw [hc] at h; exact absurd h (by decide)
  simp [h1, h2, h3, h4, h5, h6]

theorem parseInt64Chars_all_digit (l : List Char) (hne : l ≠ [])
    (hd : ∀ c ∈ l, c.isDigit = true) :
    parseInt64Chars l =
      (parseDigits l).bind
        (fun v => if (v : Int) ≤ int64Max then some (v : Int) else none) := by
  cases l with
  | nil => exact absurd rfl hne
  | cons c rest =>
    have hc : c.isDigit = true := hd c (by simp)
    simp only [parseInt64Chars]
    rw [if_neg (isDigit_ne_plus c hc), if_neg (isDigit_ne_minus c hc)]

theorem parseInt64Chars_neg_sign (l : List Char) :
    parseInt64Chars ('-' :: l) =
      (parseDigits l).bind
        (fun v => if (v : Int) ≤ 9223372036854775808 then some (-(v : Int)) else none) := by
  simp only [parseInt64Chars]
  rw [if_neg (by decide)]
  simp

theorem parseInt64_pad10_nonneg (n : Int) (h0 : 0 ≤ n) (h1 : n ≤ int64Max) :
    parseInt64 (pad10 n) = some n := by
  unfold parseInt64 pad10
  rw [if_neg (by omega)]
  rw [parseInt64Chars_all_digit _ (leftPad_ne_nil 10 n.natAbs) (leftPad_all_digit 10 n.natAbs)]
  rw [parseDigits_leftPad]
  simp only [Option.some_bind]
  rw [if_pos (by rw [Int.natAbs_of_nonneg h0]; exact h1), Int.natAbs_of_nonneg h0]

theorem parseInt64_pad10_neg (n : Int) (h0 : n < 0) (h1 : int64Min ≤ n) :
    parseInt64 (pad10 n) = some n := by
  unfold parseInt64 pad10
  rw [if_pos h0]
  rw [show (String.mk ('-' :: leftPad 9 (natToChars n.natAbs))).data =
      '-' :: leftPad 9 (natToChars n.natAbs) from rfl]
  rw [parseInt64Chars_neg_sign]
  rw [parseDigits_leftPad]
  simp only [Option.some_bind]
  have habs : (n.natAbs : Int) = -n := Int.ofNat_natAbs_of_nonpos (le_of_lt h0)
  rw [if_pos (by rw [habs]; unfold int64Min at h1; omega)]
  rw [habs, neg_neg]

theorem parseInt64_formatInt (n : Int) (h0 : int64Min ≤ n) (h1 : n ≤ int64Max) :
    parseInt64 (formatInt n) = some n := by
  unfold parseInt64 formatInt
  by_cases hneg : n < 0
  · rw [if_pos hneg]
    rw [show (String.mk ('-' :: natToChars n.natAbs)).data =
        '-' :: natToChars n.natAbs from rfl]
    rw [parseInt64Chars_neg_sign]
    rw [parseDigits_natToChars]
    simp only [Option.some_bind]
    have habs : (n.natAbs : Int) = -n := Int.ofNat_natAbs_of_nonpos (le_of_lt hneg)
    rw [if_pos (by rw [habs]; unfold int64Min at h0; omega)]
    rw [habs, neg_neg]
  · rw [if_neg hneg]
    rw [show (String.mk (natToChars n.natAbs)).data = natToChars n.natAbs from rfl]
    rw [parseInt64Chars_all_digit _ (natToChars_ne_nil n.natAbs) (natToChars_all_digit n.natAbs)]
    rw [parseDigits_natToChars]
    simp only [Option.some_bind]
    have habs : (n.natAbs : Int) = n := Int.natAbs_of_nonneg (by omega)
    rw [if_pos (by rw [habs]; exact h1), habs]

theorem trimSpace_pad10 (n : Int) : trimSpace (pad10 n) = pad10 n := by
  unfold trimSpace
  have hall : ∀ c ∈ (pad10 n).data, isSpaceGo c = false := by
    intro c hc
    unfold pad10 at hc
    by_cases hneg : n < 0
    · rw [if_pos hneg] at hc
      simp only [String.mk] at hc
      rcases List.mem_cons.mp hc with h | h
      · rw [h]; decide
      · unfold leftPad at h
        rcases List.mem_append.mp h with h | h
        · rw [List.eq_of_mem_replicate h]; decide
        · exact isDigit_not_space c (natToChars_all_digit n.natAbs c h)
    · rw [if_neg hneg] at hc
      simp only [String.mk] at hc
      unfold leftPad at hc
      rcases List.mem_append.mp hc with h | h
      · rw [List.eq_of_mem_replicate h]; decide
      · exact isDigit_not_space c (natToChars_all_digit n.natAbs c h)
  rw [trimChars_eq_self _ hall]

theorem trimSpace_formatInt (n : Int) : trimSpace (formatInt n) = formatInt n := by
  unfold trimSpace
  have hall : ∀ c ∈ (formatInt n).data, isSpaceGo c = false := by
    intro c hc
    unfold formatInt at hc
    by_cases hneg : n < 0
    · rw [if_pos hneg] at hc
      simp only [String.mk] at hc
      rcases List.mem_cons.mp hc with h | h
      · rw [h]; decide
      · exact isDigit_not_space c (natToChars_all_digit n.natAbs c h)
    · rw [if_neg hneg] at hc
      simp only [String.mk] at hc
      exact isDigit_not_space c (natToChars_all_digit n.natAbs c hc)
  rw [trimChars_eq_self _ hall]

theorem parseInt_pad10 (n : Int) (h0 : int64Min ≤ n) (h1 : n ≤ int64Max) :
    parseInt (pad10 n) = n := by
  unfold parseInt
  rw [trimSpace_pad10]
  by_cases hneg : n < 0
  · rw [parseInt64_pad10_neg n hneg h0]; rfl
  · rw [parseInt64_pad10_nonneg n (by omega) h1]; rfl

theorem bind_nonneg_bounds (o : Option Nat) (v : Int)
    (h : o.bind (fun m => if (m : Int) ≤ int64Max then some ((m : Int)) else none) = some v) :
    int64Min ≤ v ∧ v ≤ int64Max := by
  cases o with
  | none => exact absurd h (by simp)
  | some m =>
    simp only [Option.some_bind] at h
    by_cases hle : (m : Int) ≤ int64Max
    · rw [if_pos hle] at h
      have hv := Option.some.inj h
      unfold int64Min int64Max
      unfold int64Max at hle
      omega
    · rw [if_neg hle] at h; exact absurd h (by simp)

theorem bind_neg_bounds (o : Option Nat) (v : Int)
    (h : o.bind (fun m => if (m : Int) ≤ 9223372036854775808 then some (-(m : Int)) else none)
        = some v) :
    int64Min ≤ v ∧ v ≤ int64Max := by
  cases o with
  | none => exact absurd h (by simp)
  | some m =>
    simp only [Option.some_bind] at h
    by_cases hle : (m : Int) ≤ 9223372036854775808
    · rw [if_pos hle] at h
      have hv := Option.some.inj h
      unfold int64Min int64Max
      omega
    · rw [if_neg hle] at h; exact absurd h (by simp)

theorem parseInt64_bounds (s : String) (v : Int) (h : parseInt64 s = some v) :
    int64Min ≤ v ∧ v ≤ int64Max := by
  unfold parseInt64 at h
  cases hl : s.data with
  | nil => rw [hl] at h; exact absurd h (by simp [parseInt64Chars])
  | cons c rest =>
    rw [hl] at h
    simp only [parseInt64Chars] at h
    by_cases hp : c = '+'
    · rw [if_pos hp] at h
      exact bind_nonneg_bounds _ v h
    · rw [if_neg hp] at h
      by_cases hm : c = '-'
      · rw [if_pos hm] at h
        exact bind_neg_bounds _ v h
      · rw [if_neg hm] at h
        exact bind_nonneg_bounds _ v h

theorem int64Field_bounds (r : Row) (fn : String) :
    int64Min ≤ int64FieldValueByName r fn ∧ int64FieldValueByName r fn ≤ int64Max := by
  unfold int64FieldValueByName
  cases h : parseInt64 (trimSpace ((fieldValueByName r fn).getD "")) with
  | none => unfold int64Min int64Max; simp
  | some v => simpa using parseInt64_bounds _ v h

theorem int64Field_set_formatInt (r : Row) (fn : String) (v : Int)
    (h0 : int64Min ≤ v) (h1 : v ≤ int64Max) :
    int64FieldValueByName (setFieldValueByName r fn (formatInt v)) fn = v := by
  unfold int64FieldValueByName
  rw [fieldValue_set_self]
  simp only [Option.getD_some]
  rw [trimSpace_formatInt, parseInt64_formatInt v h0 h1]
  rfl

/-! ## Helper lemmas: the scan loop -/

theorem scanUpdate_cons_skip (r : Row) (rest : List Row) (tipo fn : String)
    (h : rowMatches r tipo = false) :
    scanUpdate (r :: rest) tipo fn =
      (scanUpdate rest tipo fn).map (fun p => (p.1, r :: p.2)) := by
  unfold rowMatches at h
  conv_lhs => rw [scanUpdate]
  cases hd : r.deleted with
  | true => simp [hd]
  | false =>
    rw [hd] at h
    simp only [Bool.not_false, Bool.true_and] at h
    cases hf : fieldValueByName r "NUMERO" with
    | none => simp [hd, hf]
    | some s =>
      rw [hf] at h
      simp only [] at h
      simp [hd, hf, h]

theorem scanUpdate_cons_found (r : Row) (rest : List Row) (tipo fn : String)
    (h : rowMatches r tipo = true) :
    scanUpdate (r :: rest) tipo fn =
      some (wrap64 (int64FieldValueByName r fn + 1),
        setFieldValueByName r fn (formatInt (wrap64 (int64FieldValueByName r fn + 1)))
          :: rest) := by
  unfold rowMatches at h
  conv_lhs => rw [scanUpdate]
  cases hd : r.deleted with
  | true => rw [hd] at h; simp at h
  | false =>
    rw [hd] at h
    simp only [Bool.not_false, Bool.true_and] at h
    cases hf : fieldValueByName r "NUMERO" with
    | none => rw [hf] at h; simp at h
    | some s =>
      rw [hf] at h
      simp only [] at h
      simp [hd, hf, h]

theorem scanUpdate_eq_none (rows : List Row) (tipo fn : String)
    (h : ∀ r ∈ rows, rowMatches r tipo = false) :
    scanUpdate rows tipo fn = none := by
  induction rows with
  | nil => rfl
  | cons r rest ih =>
    rw [scanUpdate_cons_skip r rest tipo fn (h r (by simp))]
    rw [ih (fun r' hr' => h r' (by simp [hr']))]
    rfl

theorem scanUpdate_append_found (pre post : List Row) (r : Row) (tipo fn : String)
    (hpre : ∀ r' ∈ pre, rowMatches r' tipo = false)
    (hr : rowMatches r tipo = true) :
    scanUpdate (pre ++ r :: post) tipo fn =
      some (wrap64 (int64FieldValueByName r fn + 1),
        pre ++ setFieldValueByName r fn
            (formatInt (wrap64 (int64FieldValueByName r fn + 1))) :: post) := by
  induction pre with
  | nil => simpa using scanUpdate_cons_found r post tipo fn hr
  | cons q qs ih =>
    rw [List.cons_append]
    rw [scanUpdate_cons_skip q (qs ++ r :: post) tipo fn (hpre q (by simp))]
    rw [ih (fun r' hr' => hpre r' (by simp [hr']))]
    rfl

theorem scanUpdate_some_inv (rows : List Row) (tipo fn : String) (n : Int)
    (rows' : List Row) (h : scanUpdate rows tipo fn = some (n, rows')) :
    ∃ i r, rows[i]? = some r ∧ rowMatches r tipo = true ∧
      n = wrap64 (int64FieldValueByName r fn + 1) ∧
      rows' = rows.set i (setFieldValueByName r fn (formatInt n)) := by
  induction rows generalizing rows' with
  | nil => simp [scanUpdate] at h
  | cons q rest ih =>
    cases hm : rowMatches q tipo with
    | false =>
      rw [scanUpdate_cons_skip q rest tipo fn hm] at h
      cases hs : scanUpdate rest tipo fn with
      | none => rw [hs] at h; simp at h
      | some p =>
        rw [hs] at h
        simp only [Option.map_some', Option.some.injEq, Prod.mk.injEq] at h
        obtain ⟨hn, hrows⟩ := h
        obtain ⟨i, r, hget, hmatch, hval, hset⟩ := ih p.2 (by rw [hs, ← hn])
        refine ⟨i + 1, r, ?_, hmatch, hval, ?_⟩
        · simpa using hget
        · rw [← hrows, hset]
          rfl
    | true =>
      rw [scanUpdate_cons_found q rest tipo fn hm] at h
      simp only [Option.some.injEq, Prod.mk.injEq] at h
      obtain ⟨hn, hrows⟩ := h
      refine ⟨0, q, by simp, hm, hn.symm, ?_⟩
      rw [← hrows, hn]
      rfl

/-! ## Helper lemmas: GetSequence -/

theorem channelFieldName_cases (cta fn : String) (h : channelFieldName cta = some fn) :
    fn = "NUMERO_1" ∨ fn = "NUMERO_2" := by
  unfold channelFieldName at h
  by_cases ha : toUpperGo cta = "A"
  · rw [if_pos ha] at h
    exact Or.inl (Option.some.inj h).symm
  · rw [if_neg ha] at h
    by_cases hb : toUpperGo cta = "B"
    · rw [if_pos hb] at h
      exact Or.inr (Option.some.inj h).symm
    · rw [if_neg hb] at h
      exact absurd h (by simp)

theorem channelFieldName_ne_numero (cta fn : String) (h : channelFieldName cta = some fn) :
    fn ≠ "NUMERO" := by
  rcases channelFieldName_cases cta fn h with h1 | h1 <;> rw [h1] <;> decide

theorem channelFieldName_A (cta fn : String) (h : channelFieldName cta = some fn)
    (ha : toUpperGo cta = "A") : fn = "NUMERO_1" := by
  unfold channelFieldName at h
  rw [if_pos ha] at h
  exact (Option.some.inj h).symm

theorem channelFieldName_B (cta fn : String) (h : channelFieldName cta = some fn)
    (hb : toUpperGo cta = "B") : fn = "NUMERO_2" := by
  unfold channelFieldName at h
  by_cases ha : toUpperGo cta = "A"
  · rw [ha] at hb; exact absurd hb (by decide)
  · rw [if_neg ha, if_pos hb] at h
    exact (Option.some.inj h).symm

theorem rowMatches_set (r : Row) (fn v tipo : String) (h : fn ≠ "NUMERO") :
    rowMatches (setFieldValueByName r fn v) tipo = rowMatches r tipo := by
  unfold rowMatches
  rw [deleted_set]
  rw [fieldValue_set_ne r fn v "NUMERO" (fun hx => h hx.symm)]

theorem getSequence_found (pre post : List Row) (r : Row) (tipo cta fn : String)
    (hch : channelFieldName cta = some fn)
    (hpre : ∀ r' ∈ pre, rowMatches r' tipo = false)
    (hr : rowMatches r tipo = true) :
    GetSequence (some (pre ++ r :: post)) tipo cta =
      (Except.ok (tipo ++ pad10 (wrap64 (int64FieldValueByName r fn + 1)),
          wrap64 (int64FieldValueByName r fn + 1)),
        some (pre ++ setFieldValueByName r fn
            (formatInt (wrap64 (int64FieldValueByName r fn + 1))) :: post)) := by
  simp only [GetSequence, hch, scanUpdate_append_found pre post r tipo fn hpre hr]

theorem getSequence_ok_inv (table : List Row) (tipo cta s : String) (n : Int)
    (disk' : Option (List Row))
    (h : GetSequence (some table) tipo cta = (Except.ok (s, n), disk')) :
    ∃ fn table2, channelFieldName cta = some fn ∧
      scanUpdate table tipo fn = some (n, table2) ∧
      s = tipo ++ pad10 n ∧ disk' = some table2 := by
  cases hch : channelFieldName cta with
  | none =>
    simp only [GetSequence, hch] at h
    simp at h
  | some fn =>
    simp only [GetSequence, hch] at h
    cases hs : scanUpdate table tipo fn with
    | none =>
      rw [hs] at h
      simp at h
    | some p =>
      obtain ⟨pn, pt⟩ := p
      rw [hs] at h
      simp only [Prod.mk.injEq, Except.ok.injEq] at h
      obtain ⟨⟨hstr, hn⟩, hdisk⟩ := h
      subst hn
      exact ⟨fn, pt, rfl, hs, hstr.symm, hdisk.symm⟩

/-! ## Claim theorems -/

/-- Claim C1: starting from a table containing exactly one non-deleted
row with serial_prefix "E3200" and channel-A counter 5,
`Allocate("E32", A)` returns `("E320000000006", 6)`, and a second
`Allocate("E32", A)` on the resulting state returns
`("E320000000007", 7)`. -/
theorem claim_C1 :
    (GetSequence (some [Row.mk false
        [("NUMERO", "E3200"), ("NUMERO_1", "5"), ("NUMERO_2", "0")]]) "E32" "A").1 =
      Except.ok ("E320000000006", 6) ∧
    (GetSequence (GetSequence (some [Row.mk false
        [("NUMERO", "E3200"), ("NUMERO_1", "5"), ("NUMERO_2", "0")]]) "E32" "A").2
        "E32" "A").1 =
      Except.ok ("E320000000007", 7) := by
  constructor
  · rfl
  · rfl

/-- Claim C2, counterexample: the code opens the DBF file before
validating the channel, so with a table state whose file does not open
and the invalid channel "Q" the returned error is the open error, not
the invalid-channel error — refuting "the error is returned without
opening the file … for every table state". -/
theorem claim_C2_counterexample :
    (GetSequence none "E32" "Q").1 = Except.error "error abriendo DBF" ∧
    (GetSequence none "E32" "Q").1 ≠ Except.error ("CTA no válido: " ++ "Q") := by
  constructor
  · rfl
  · decide

/-- Claim C2, amended: for every channel that is not `A`/`B`
(case-insensitive), on every table state whose file opens successfully,
`Allocate` fails with the invalid-channel error and performs no file
write (the state is returned unchanged); the file is however opened
(read) before the validation. -/
theorem claim_C2 (table : List Row) (tipo cta : String)
    (h : channelFieldName cta = none) :
    GetSequence (some table) tipo cta =
      (Except.error ("CTA no válido: " ++ cta), some table) := by
  simp only [GetSequence, h]

/-- Witness for C2 at channel "Q" on a concrete one-row table. -/
theorem claim_C2_witness :
    channelFieldName "Q" = none ∧
    GetSequence (some [Row.mk false
        [("NUMERO", "E3200"), ("NUMERO_1", "5"), ("NUMERO_2", "0")]]) "E32" "Q" =
      (Except.error ("CTA no válido: " ++ "Q"),
        some [Row.mk false
          [("NUMERO", "E3200"), ("NUMERO_1", "5"), ("NUMERO_2", "0")]]) :=
  ⟨by decide,
    claim_C2 [Row.mk false [("NUMERO", "E3200"), ("NUMERO_1", "5"), ("NUMERO_2", "0")]]
      "E32" "Q" (by decide)⟩

/-- Claim C3: for every table state in which no non-deleted row's
trimmed serial_prefix starts with the requested type code, `Allocate`
(called with a valid channel) fails with the not-found error carrying
the type code, and the table state is returned unchanged — no save is
performed. -/
theorem claim_C3 (table : List Row) (tipo cta : String)
    (hch : (channelFieldName cta).isSome = true)
    (hnm : ∀ r ∈ table, rowMatches r tipo = false) :
    GetSequence (some table) tipo cta =
      (Except.error ("tipo de comprobante no encontrado: " ++ tipo), some table) := by
  obtain ⟨fn, hfn⟩ := Option.isSome_iff_exists.mp hch
  simp only [GetSequence, hfn, scanUpdate_eq_none table tipo fn hnm]

/-- Witness for C3: `Allocate("ZZZ", A)` against a table whose only row
has prefix "E3200". -/
theorem claim_C3_witness :
    (channelFieldName "A").isSome = true ∧
    GetSequence (some [Row.mk false
        [("NUMERO", "E3200"), ("NUMERO_1", "5"), ("NUMERO_2", "0")]]) "ZZZ" "A" =
      (Except.error ("tipo de comprobante no encontrado: " ++ "ZZZ"),
        some [Row.mk false
          [("NUMERO", "E3200"), ("NUMERO_1", "5"), ("NUMERO_2", "0")]]) :=
  ⟨by decide,
    claim_C3 [Row.mk false [("NUMERO", "E3200"), ("NUMERO_1", "5"), ("NUMERO_2", "0")]]
      "ZZZ" "A" (by decide) (by decide)⟩

/-- Claim C4: every successful `Allocate(type_code, channel)` with a
3-character type code returns a pair `(sequence_string, n)` where the
string is the type code followed by `n` zero-padded to 10 digits,
parsing the numeric suffix back yields exactly `n`, and the first 3
characters equal the requested type code. -/
theorem claim_C4 (disk : Option (List Row)) (tipo cta s : String) (n : Int)
    (disk' : Option (List Row)) (hlen : tipo.data.length = 3)
    (h : GetSequence disk tipo cta = (Except.ok (s, n), disk')) :
    s = tipo ++ pad10 n ∧ parseInt (String.mk (s.data.drop 3)) = n ∧
      String.mk (s.data.take 3) = tipo := by
  cases disk with
  | none => simp [GetSequence] at h
  | some table =>
    obtain ⟨fn, t2, hch, hs, hstr, hdisk⟩ := getSequence_ok_inv table tipo cta s n disk' h
    obtain ⟨i, r, hget, hm, hval, hset⟩ := scanUpdate_some_inv table tipo fn n t2 hs
    have hb1 : int64Min ≤ n := by rw [hval]; exact (wrap64_bounds _).1
    have hb2 : n ≤ int64Max := by rw [hval]; exact (wrap64_bounds _).2
    refine ⟨hstr, ?_, ?_⟩
    · rw [hstr, String.data_append, ← hlen, List.drop_left]
      exact parseInt_pad10 n hb1 hb2
    · rw [hstr, String.data_append, ← hlen, List.take_left]

/-- Witness for C4 at the concrete allocation of C1's scenario. -/
theorem claim_C4_witness :
    "E320000000006" = "E32" ++ pad10 6 ∧
    parseInt (String.mk ("E320000000006".data.drop 3)) = 6 ∧
    String.mk ("E320000000006".data.take 3) = "E32" :=
  claim_C4
    (some [Row.mk false [("NUMERO", "E3200"), ("NUMERO_1", "5"), ("NUMERO_2", "0")]])
    "E32" "A" "E320000000006" 6
    (some [Row.mk false [("NUMERO", "E3200"), ("NUMERO_1", "6"), ("NUMERO_2", "0")]])
    (by decide) (by decide)

/-- Claim C5: the scan walks rows in file order, skips deleted rows,
matches on a trimmed-prefix test, and stops at the first match: for a
table `pre ++ r :: post` where nothing in `pre` matches and `r`
matches, the allocation reads and increments `r`'s counter and leaves
`post` (which may contain further matching rows) untouched — on every
call. -/
theorem claim_C5 (pre post : List Row) (r : Row) (tipo cta fn : String)
    (hch : channelFieldName cta = some fn)
    (hpre : ∀ r' ∈ pre, rowMatches r' tipo = false)
    (hr : rowMatches r tipo = true) :
    GetSequence (some (pre ++ r :: post)) tipo cta =
      (Except.ok (tipo ++ pad10 (wrap64 (int64FieldValueByName r fn + 1)),
          wrap64 (int64FieldValueByName r fn + 1)),
        some (pre ++ setFieldValueByName r fn
            (formatInt (wrap64 (int64FieldValueByName r fn + 1))) :: post)) :=
  getSequence_found pre post r tipo cta fn hch hpre hr

/-- Witness for C5: a deleted row, then two non-deleted rows whose
prefixes both start with "E32"; the first non-deleted one is selected
and the second is untouched. -/
theorem claim_C5_witness :
    GetSequence (some ([Row.mk true [("NUMERO", "E3299")]] ++
        Row.mk false [("NUMERO", "E3200"), ("NUMERO_1", "5"), ("NUMERO_2", "7")] ::
        [Row.mk false [("NUMERO", "E3250"), ("NUMERO_1", "99"), ("NUMERO_2", "0")]]))
      "E32" "A" =
      (Except.ok ("E320000000006", 6),
        some [Row.mk true [("NUMERO", "E3299")],
          Row.mk false [("NUMERO", "E3200"), ("NUMERO_1", "6"), ("NUMERO_2", "7")],
          Row.mk false [("NUMERO", "E3250"), ("NUMERO_1", "99"), ("NUMERO_2", "0")]]) := by
  rw [claim_C5 [Row.mk true [("NUMERO", "E3299")]]
    [Row.mk false [("NUMERO", "E3250"), ("NUMERO_1", "99"), ("NUMERO_2", "0")]]
    (Row.mk false [("NUMERO", "E3200"), ("NUMERO_1", "5"), ("NUMERO_2", "7")])
    "E32" "A" "NUMERO_1" (by decide) (by decide) (by decide)]
  decide

/-- Claim C6: a successful allocation on a valid channel modifies only
the matched row's selected counter field (`NUMERO_1` for channel A,
`NUMERO_2` for channel B): the saved table is the original with exactly
one row replaced, every other row is unchanged, and in the replaced row
the deleted flag and every field other than the selected counter are
unchanged. -/
theorem claim_C6 (table table' : List Row) (tipo cta s : String) (n : Int)
    (h : GetSequence (some table) tipo cta = (Except.ok (s, n), some table')) :
    ∃ (fn : String) (i : Nat) (r : Row), channelFieldName cta = some fn ∧
      (toUpperGo cta = "A" → fn = "NUMERO_1") ∧
      (toUpperGo cta = "B" → fn = "NUMERO_2") ∧
      table[i]? = some r ∧
      table' = table.set i (setFieldValueByName r fn (formatInt n)) ∧
      (∀ j, j ≠ i → table'[j]? = table[j]?) ∧
      (setFieldValueByName r fn (formatInt n)).deleted = r.deleted ∧
      fieldValueByName (setFieldValueByName r fn (formatInt n)) fn = some (formatInt n) ∧
      (∀ name, name ≠ fn →
        fieldValueByName (setFieldValueByName r fn (formatInt n)) name =
          fieldValueByName r name) := by
  obtain ⟨fn, t2, hch, hs, hstr, hdisk⟩ := getSequence_ok_inv table tipo cta s n (some table') h
  obtain ⟨i, r, hget, hm, hval, hset⟩ := scanUpdate_some_inv table tipo fn n t2 hs
  have ht' : table' = table.set i (setFieldValueByName r fn (formatInt n)) := by
    rw [Option.some.inj hdisk, hset]
  refine ⟨fn, i, r, hch, channelFieldName_A cta fn hch, channelFieldName_B cta fn hch,
    hget, ht', ?_, deleted_set r fn (formatInt n), fieldValue_set_self r fn (formatInt n), ?_⟩
  · intro j hj
    rw [ht']
    exact List.getElem?_set_ne (fun hx => hj hx.symm)
  · intro name hname
    exact fieldValue_set_ne r fn (formatInt n) name hname

/-- Witness for C6 at the concrete allocation of C1's scenario (with a
distinct channel-B counter that must stay unchanged). -/
theorem claim_C6_witness :
    ∃ (fn : String) (i : Nat) (r : Row), channelFieldName "A" = some fn ∧
      (toUpperGo "A" = "A" → fn = "NUMERO_1") ∧
      (toUpperGo "A" = "B" → fn = "NUMERO_2") ∧
      [Row.mk false [("NUMERO", "E3200"), ("NUMERO_1", "5"), ("NUMERO_2", "44")]][i]? =
        some r ∧
      [Row.mk false [("NUMERO", "E3200"), ("NUMERO_1", "6"), ("NUMERO_2", "44")]] =
        [Row.mk false [("NUMERO", "E3200"), ("NUMERO_1", "5"), ("NUMERO_2", "44")]].set i
          (setFieldValueByName r fn (formatInt 6)) ∧
      (∀ j, j ≠ i →
        [Row.mk false [("NUMERO", "E3200"), ("NUMERO_1", "6"), ("NUMERO_2", "44")]][j]? =
          [Row.mk false [("NUMERO", "E3200"), ("NUMERO_1", "5"), ("NUMERO_2", "44")]][j]?) ∧
      (setFieldValueByName r fn (formatInt 6)).deleted = r.deleted ∧
      fieldValueByName (setFieldValueByName r fn (formatInt 6)) fn = some (formatInt 6) ∧
      (∀ name, name ≠ fn →
        fieldValueByName (setFieldValueByName r fn (formatInt 6)) name =
          fieldValueByName r name) :=
  claim_C6 [Row.mk false [("NUMERO", "E3200"), ("NUMERO_1", "5"), ("NUMERO_2", "44")]]
    [Row.mk false [("NUMERO", "E3200"), ("NUMERO_1", "6"), ("NUMERO_2", "44")]]
    "E32" "A" "E320000000006" 6 (by decide)

/-- Claim C7, counterexample: with the channel-A counter at the largest
`int64` value 9223372036854775807, the next allocation wraps the Go
`int64` addition to -9223372036854775808 instead of increasing by 1,
refuting "never wraps … for every starting counter value representable
in a 64-bit non-negative integer". -/
theorem claim_C7_counterexample :
    (GetSequence (some [Row.mk false
        [("NUMERO", "E3200"), ("NUMERO_1", "9223372036854775807"), ("NUMERO_2", "0")]])
      "E32" "A").1 =
      Except.ok ("E32-9223372036854775808", -9223372036854775808) ∧
    (-9223372036854775808 : Int) ≠ 9223372036854775807 + 1 := by
  constructor
  · rfl
  · decide

/-- Claim C7, amended: on every successful allocation, whenever the old
counter value is strictly below the `int64` maximum, the returned value
is exactly the old value plus 1 (a strict increase, no wrap and no
reset); at the maximum itself the Go `int64` addition wraps. -/
theorem claim_C7 (table : List Row) (tipo cta fn s : String) (n : Int)
    (disk' : Option (List Row))
    (hch : channelFieldName cta = some fn)
    (h : GetSequence (some table) tipo cta = (Except.ok (s, n), disk')) :
    ∃ (i : Nat) (r : Row), table[i]? = some r ∧ rowMatches r tipo = true ∧
      (int64FieldValueByName r fn < int64Max →
        n = int64FieldValueByName r fn + 1) := by
  obtain ⟨fn', t2, hch', hs, hstr, hdisk⟩ := getSequence_ok_inv table tipo cta s n disk' h
  rw [hch] at hch'
  have hfn : fn = fn' := Option.some.inj hch'
  subst hfn
  obtain ⟨i, r, hget, hm, hval, hset⟩ := scanUpdate_some_inv table tipo fn n t2 hs
  refine ⟨i, r, hget, hm, fun hlt => ?_⟩
  rw [hval]
  have hb := int64Field_bounds r fn
  exact wrap64_eq_self _ (le_trans hb.1 (by omega)) (by omega)

/-- Witness for C7 at the concrete allocation of C1's scenario. -/
theorem claim_C7_witness :
    ∃ (i : Nat) (r : Row),
      [Row.mk false [("NUMERO", "E3200"), ("NUMERO_1", "5"), ("NUMERO_2", "0")]][i]? =
        some r ∧
      rowMatches r "E32" = true ∧
      (int64FieldValueByName r "NUMERO_1" < int64Max →
        (6 : Int) = int64FieldValueByName r "NUMERO_1" + 1) :=
  claim_C7 [Row.mk false [("NUMERO", "E3200"), ("NUMERO_1", "5"), ("NUMERO_2", "0")]]
    "E32" "A" "NUMERO_1" "E320000000006" 6
    (some [Row.mk false [("NUMERO", "E3200"), ("NUMERO_1", "6"), ("NUMERO_2", "0")]])
    (by decide) (by decide)

/-- Claim C8: a field text that does not parse as an integer (after
trimming) yields the value 0 rather than an error, both in the
`parseInt` helper used by the listing and in the counter read of the
allocation; and the listing decodes every non-deleted row in file
order, so one malformed numeric field never aborts the whole listing. -/
theorem claim_C8 :
    (∀ s : String, parseInt64 (trimSpace s) = none → parseInt s = 0) ∧
    (∀ (r : Row) (fn : String),
      parseInt64 (trimSpace ((fieldValueByName r fn).getD "")) = none →
      int64FieldValueByName r fn = 0) ∧
    (∀ rows : List Row,
      getRecordTypesLoop rows = (rows.filter (fun r => !r.deleted)).map decodeRow) := by
  refine ⟨?_, ?_, ?_⟩
  · intro s h
    unfold parseInt
    rw [h]
    rfl
  · intro r fn h
    unfold int64FieldValueByName
    rw [h]
    rfl
  · intro rows
    induction rows with
    | nil => rfl
    | cons r rest ih =>
      unfold getRecordTypesLoop
      rw [List.filter_cons]
      cases hd : r.deleted with
      | true => simp [hd, ih]
      | false => simp [hd, ih]

/-- Witness for C8: the unparsable field text "12x" is read as 0. -/
theorem claim_C8_witness :
    parseInt64 (trimSpace "12x") = none ∧ parseInt "12x" = 0 :=
  ⟨by decide, claim_C8.1 "12x" (by decide)⟩

/-- One unfolding step of the serialized allocation sequence. -/
theorem allocateSeq_succ (disk : Option (List Row)) (tipo cta : String) (N : Nat) :
    (allocateSeq disk tipo cta (N + 1)).1 =
      (GetSequence disk tipo cta).1 ::
        (allocateSeq (GetSequence disk tipo cta).2 tipo cta N).1 := rfl

/-- Claim C9, counterexample: two serialized `Allocate("E32", A)` calls
starting from counter value 9223372036854775806 return
9223372036854775807 and then the wrapped value -9223372036854775808,
not the set {old+1, old+2} — refuting the claim for every starting
counter value. -/
theorem claim_C9_counterexample :
    (allocateSeq (some [Row.mk false
        [("NUMERO", "E3200"), ("NUMERO_1", "9223372036854775806"), ("NUMERO_2", "0")]])
      "E32" "A" 2).1 =
      [Except.ok ("E329223372036854775807", 9223372036854775807),
        Except.ok ("E32-9223372036854775808", -9223372036854775808)] ∧
    (-9223372036854775808 : Int) ≠ 9223372036854775806 + 2 := by
  constructor
  · rfl
  · decide

/-- Claim C9, amended: under the process-wide mutex every interleaving
of N concurrent `Allocate(T, C)` calls executes as N serialized calls;
starting from a table whose first matching row has counter value `old`
with `old + N` within the `int64` range, the N returned numeric values
are exactly `old+1, old+2, …, old+N` in order of execution — no
duplicates and no gaps. -/
theorem claim_C9 (pre post : List Row) (r : Row) (tipo cta fn : String) (N : Nat)
    (hch : channelFieldName cta = some fn)
    (hpre : ∀ r' ∈ pre, rowMatches r' tipo = false)
    (hr : rowMatches r tipo = true)
    (hub : int64FieldValueByName r fn + N ≤ int64Max) :
    (allocateSeq (some (pre ++ r :: post)) tipo cta N).1 =
      (List.range N).map (fun k : Nat =>
        Except.ok (tipo ++ pad10 (int64FieldValueByName r fn + (k : Int) + 1),
          int64FieldValueByName r fn + (k : Int) + 1)) := by
  induction N generalizing r with
  | zero => rfl
  | succ N ih =>
    push_cast at hub
    have hb := int64Field_bounds r fn
    have hN : (0 : Int) ≤ (N : Int) := Int.natCast_nonneg N
    have h1 : int64FieldValueByName r fn + 1 ≤ int64Max := by omega
    have hw : wrap64 (int64FieldValueByName r fn + 1) = int64FieldValueByName r fn + 1 :=
      wrap64_eq_self _ (le_trans hb.1 (by omega)) h1
    have hne : fn ≠ "NUMERO" := channelFieldName_ne_numero cta fn hch
    have hstep := getSequence_found pre post r tipo cta fn hch hpre hr
    have hm1 : rowMatches (setFieldValueByName r fn
        (formatInt (wrap64 (int64FieldValueByName r fn + 1)))) tipo = true := by
      rw [rowMatches_set r fn _ tipo hne]
      exact hr
    have hv1 : int64FieldValueByName (setFieldValueByName r fn
        (formatInt (wrap64 (int64FieldValueByName r fn + 1)))) fn =
        int64FieldValueByName r fn + 1 := by
      rw [int64Field_set_formatInt r fn (wrap64 (int64FieldValueByName r fn + 1))
        (wrap64_bounds _).1 (wrap64_bounds _).2, hw]
    have ih1 := ih (setFieldValueByName r fn
        (formatInt (wrap64 (int64FieldValueByName r fn + 1)))) hm1
      (by rw [hv1]; omega)
    rw [hv1] at ih1
    rw [allocateSeq_succ, hstep]
    simp only [Prod.fst, Prod.snd] at ih1 ⊢
    rw [ih1, hw]
    rw [List.range_succ_eq_map, List.map_cons, List.map_map]
    congr 1
    · simp
    · apply List.map_congr_left
      intro k hk
      simp only [Function.comp]
      push_cast
      ring_nf

/-- Witness for C9: two serialized allocations in C1's scenario return
exactly 6 and 7. -/
theorem claim_C9_witness :
    (allocateSeq (some ([] ++ Row.mk false
        [("NUMERO", "E3200"), ("NUMERO_1", "5"), ("NUMERO_2", "0")] :: []))
      "E32" "A" 2).1 =
      [Except.ok ("E320000000006", 6), Except.ok ("E320000000007", 7)] := by
  rw [claim_C9 [] []
    (Row.mk false [("NUMERO", "E3200"), ("NUMERO_1", "5"), ("NUMERO_2", "0")])
    "E32" "A" "NUMERO_1" 2 (by decide) (by decide) (by decide) (by decide)]
  decide

/-- Claim C10: a non-deleted row whose `NUMERO` field cannot be read is
silently skipped by the scan: the result of the allocation is exactly
the result on the remaining rows (so such a row is never the selected
match and never causes the call itself to fail), and the skipped row is
carried over unchanged in the saved state. -/
theorem claim_C10 (r : Row) (rest : List Row) (tipo cta : String)
    (hch : (channelFieldName cta).isSome = true)
    (hdel : r.deleted = false)
    (hnum : fieldValueByName r "NUMERO" = none) :
    (GetSequence (some (r :: rest)) tipo cta).1 = (GetSequence (some rest) tipo cta).1 ∧
    (GetSequence (some (r :: rest)) tipo cta).2 =
      Option.map (fun t => r :: t) (GetSequence (some rest) tipo cta).2 := by
  obtain ⟨fn, hfn⟩ := Option.isSome_iff_exists.mp hch
  have hrm : rowMatches r tipo = false := by
    simp [rowMatches, hdel, hnum]
  have hskip := scanUpdate_cons_skip r rest tipo fn hrm
  cases hs : scanUpdate rest tipo fn with
  | none =>
    rw [hs] at hskip
    simp [GetSequence, hfn, hskip, hs]
  | some p =>
    obtain ⟨pn, pt⟩ := p
    rw [hs] at hskip
    simp [GetSequence, hfn, hskip, hs]

/-- Witness for C10: a non-deleted row with no readable `NUMERO` field
in front of C1's row is skipped and carried over unchanged. -/
theorem claim_C10_witness :
    (GetSequence (some (Row.mk false [("NOMBRE", "X")] ::
        [Row.mk false [("NUMERO", "E3200"), ("NUMERO_1", "5"), ("NUMERO_2", "0")]]))
      "E32" "A").1 =
      (GetSequence (some [Row.mk false
        [("NUMERO", "E3200"), ("NUMERO_1", "5"), ("NUMERO_2", "0")]]) "E32" "A").1 ∧
    (GetSequence (some (Row.mk false [("NOMBRE", "X")] ::
        [Row.mk false [("NUMERO", "E3200"), ("NUMERO_1", "5"), ("NUMERO_2", "0")]]))
      "E32" "A").2 =
      Option.map (fun t => Row.mk false [("NOMBRE", "X")] :: t)
        (GetSequence (some [Row.mk false
          [("NUMERO", "E3200"), ("NUMERO_1", "5"), ("NUMERO_2", "0")]]) "E32" "A").2 :=
  claim_C10 (Row.mk false [("NOMBRE", "X")])
    [Row.mk false [("NUMERO", "E3200"), ("NUMERO_1", "5"), ("NUMERO_2", "0")]]
    "E32" "A" (by decide) (by decide) (by decide)

end ECF
